import Mathlib

/-!
# Verification of `libcpp-pg-pool` (`lklibs::PgPool`)

Shallow embedding of the single-header PostgreSQL connection pool
`libcpp-pg-pool.hpp`.  Connection handles (`pqxx::connection*`) are
modelled as natural numbers; the pool's `std::queue` of idle handles is a
`List Nat` whose head is the queue's front; the `stop` flag is a `Bool`.
The mutex only serialises the operations, so each operation is a pure
function on the pool state; the condition variable's `notify_one` /
`notify_all` calls are recorded as explicit `Signal` values.
-/

namespace PgPoolModel

/-- A `notify_*` call on the condition variable `connectionAvailable`. -/
inductive Signal where
  | notifyOne : Signal
  | notifyAll : Signal
deriving DecidableEq, Repr

/-- The shared mutable state of `lklibs::PgPool`: the
`std::queue<std::unique_ptr<pqxx::connection>> pool` (front of the queue is
the head of the list) and the `bool stop` flag.  The mutex and condition
variable serialise access and carry no data of their own. -/
structure PgPool where
  pool : List Nat
  stop : Bool
deriving DecidableEq, Repr

/-- Result of one `acquire()` call, as seen by the calling thread:
the thread blocks in `connectionAvailable.wait` (predicate
`!pool.empty() || stop` is false), or the call throws
`std::runtime_error("Connection pool is shutting down")`, or it pops the
front connection and hands it out. -/
inductive AcquireResult where
  | blocked : AcquireResult
  | shuttingDown : AcquireResult
  | acquired : Nat → AcquireResult
deriving DecidableEq, Repr

/-- `PgPool::acquire`.  Under the lock: wait until `!pool.empty() || stop`;
if `stop` is set, throw; otherwise pop the front of the queue and return it.
The second component is the pool state after the call; in the `blocked` and
`shuttingDown` cases the state is untouched. -/
def PgPool.acquire (s : PgPool) : AcquireResult × PgPool :=
  match s.pool, s.stop with
  | [], false => (.blocked, s)
  | _, true => (.shuttingDown, s)
  | c :: rest, false => (.acquired c, { s with pool := rest })

/-- `PgPool::returnConnection` (the custom deleter installed by `acquire`):
under the lock, `pool.push(conn)` (to the back of the queue) and
`connectionAvailable.notify_one()`.  It never inspects `stop`. -/
def PgPool.returnConnection (s : PgPool) (conn : Nat) : PgPool × Signal :=
  ({ s with pool := s.pool ++ [conn] }, .notifyOne)

/-- `PgPool::~PgPool`: under the lock, set `stop = true`, call
`connectionAvailable.notify_all()`, then pop and `reset()` (close) every
idle connection.  Returns the drained state, the broadcast signal, and the
list of handles closed, in the order they were popped. -/
def PgPool.destruct (s : PgPool) : PgPool × Signal × List Nat :=
  ({ pool := [], stop := true }, .notifyAll, s.pool)

/-- `PgPool::createConnection` for the `i`-th connection opened during
construction: `std::make_unique<pqxx::connection>(connectionString)` may
throw, so the environment is an oracle `openConn` giving the handle opened
by the `i`-th call, or `none` when that open fails. -/
def PgPool.createConnection (openConn : Nat → Option Nat) (i : Nat) :
    Option Nat :=
  openConn i

/-- The constructor's loop `for (i = 0; i < poolSize; ++i)
pool.push(createConnection())`, having already performed the calls before
index `i`, with `k` calls left: each open happens one at a time, in order,
and a failed open aborts the whole loop (the exception propagates). -/
def openLoop (openConn : Nat → Option Nat) (i : Nat) : Nat → Option (List Nat)
  | 0 => some []
  | k + 1 =>
    match PgPool.createConnection openConn i with
    | none => none
    | some c => (openLoop openConn (i + 1) k).map (fun l => c :: l)

/-- `PgPool::PgPool(connectionString, poolSize)`: open `poolSize`
connections one at a time, pushing each into the idle queue; `stop` starts
`false`.  If any open fails the constructor throws (`none`) and no pool
object exists. -/
def PgPool.construct (openConn : Nat → Option Nat) (poolSize : Nat) :
    Option PgPool :=
  (openLoop openConn 0 poolSize).map (fun l => { pool := l, stop := false })

/-- The `std::shared_ptr<pqxx::connection>` handed out by `acquire`: the
wrapped handle together with its reference count (`use_count`).  `acquire`
creates it with count 1. -/
structure Lease where
  handle : Nat
  refs : Nat
deriving DecidableEq, Repr

/-- Copying the shared pointer to another owner increments the count. -/
def Lease.copy (l : Lease) : Lease :=
  { l with refs := l.refs + 1 }

/-- Dropping one owner's reference.  While other references remain the
count just decrements and the pool is untouched; when the last reference
drops, the deleter runs `returnConnection` exactly once and the lease is
gone (`none`). -/
def Lease.drop (s : PgPool) (l : Lease) : PgPool × Option Lease :=
  if l.refs ≤ 1 then ((s.returnConnection l.handle).1, none)
  else (s, some { l with refs := l.refs - 1 })

/-- `acquire` as observed by a caller that wraps the popped handle: on
success the caller holds a fresh `Lease` with `use_count` 1. -/
def PgPool.acquireLease (s : PgPool) : Option (Lease × PgPool) :=
  match s.acquire with
  | (.acquired c, s') => some (⟨c, 1⟩, s')
  | _ => none

/-! ## Ghost instrumentation

The checked-out handles are not stored anywhere in the C++ object — they
live only in callers' shared pointers.  To state conservation invariants we
instrument the pool with a ghost list `out` of the handles currently
checked out, and replay histories of `acquire` / last-reference-drop
events against the real operations. -/

/-- One externally visible event between construction and destruction:
an `acquire()` call, or the last reference to the lease on handle `c`
being dropped (which fires `returnConnection c`). -/
inductive Event where
  | acq : Event
  | rel : Nat → Event
deriving DecidableEq, Repr

/-- The pool state paired with the ghost list of checked-out handles. -/
structure Ghost where
  ps : PgPool
  out : List Nat
deriving DecidableEq, Repr

/-- Replay one event.  A blocked or failing `acquire` leaves the state
unchanged; a successful one moves the popped handle to the ghost list.
A release event for a handle actually checked out runs `returnConnection`
and removes it from the ghost list; a stray release is a no-op. -/
def ghostStep (g : Ghost) : Event → Ghost
  | .acq =>
    match g.ps.acquire with
    | (.acquired c, s') => ⟨s', g.out ++ [c]⟩
    | (.blocked, _) => g
    | (.shuttingDown, _) => g
  | .rel c =>
    if c ∈ g.out then ⟨(g.ps.returnConnection c).1, g.out.erase c⟩
    else g

/-- Replay a history of events. -/
def ghostRun (g : Ghost) (evs : List Event) : Ghost :=
  evs.foldl ghostStep g

/-- Repeated `acquire`: perform `n` acquisitions, all of which must
succeed, collecting the handles in the order they were handed out. -/
def acquireN (s : PgPool) : Nat → Option (List Nat × PgPool)
  | 0 => some ([], s)
  | k + 1 =>
    match s.acquire with
    | (.acquired c, s') => (acquireN s' k).map (fun p => (c :: p.1, p.2))
    | (.blocked, _) => none
    | (.shuttingDown, _) => none

/-! ## Helper lemmas -/

/-- With `stop` set, the wait predicate `!pool.empty() || stop` is already
true, and `acquire` throws without touching the queue. -/
lemma acquire_of_stop (s : PgPool) (h : s.stop = true) :
    s.acquire = (.shuttingDown, s) := by
  rcases s with ⟨pool, stop⟩
  cases h
  cases pool <;> rfl

/-- Replaying one event preserves the multiset of live handles
(idle ++ checked out). -/
lemma ghostStep_perm (g : Ghost) (e : Event) :
    ((ghostStep g e).ps.pool ++ (ghostStep g e).out).Perm
      (g.ps.pool ++ g.out) := by
  rcases g with ⟨⟨pool, stop⟩, out⟩
  cases e with
  | acq =>
    cases stop with
    | true => cases pool <;> exact List.Perm.refl _
    | false =>
      cases pool with
      | nil => exact List.Perm.refl _
      | cons c rest =>
        simp only [ghostStep, PgPool.acquire]
        rw [← List.append_assoc]
        exact List.perm_append_singleton c (rest ++ out)
  | rel c =>
    by_cases hc : c ∈ out
    · have h1 : out.Perm (c :: out.erase c) := List.perm_cons_erase hc
      simp only [ghostStep, if_pos hc, PgPool.returnConnection]
      rw [List.append_assoc]
      exact (h1.append_left pool).symm
    · simp only [ghostStep, if_neg hc]
      exact List.Perm.refl _

/-- Replaying a whole history preserves the multiset of live handles. -/
lemma ghostRun_perm (g : Ghost) (evs : List Event) :
    ((ghostRun g evs).ps.pool ++ (ghostRun g evs).out).Perm
      (g.ps.pool ++ g.out) := by
  induction evs generalizing g with
  | nil => exact List.Perm.refl _
  | cons e t ih =>
    have h1 := ih (ghostStep g e)
    have h2 := ghostStep_perm g e
    exact (h1.trans h2)

/-- No event changes the `stop` flag. -/
lemma ghostStep_stop (g : Ghost) (e : Event) :
    (ghostStep g e).ps.stop = g.ps.stop := by
  rcases g with ⟨⟨pool, stop⟩, out⟩
  cases e with
  | acq => cases stop <;> cases pool <;> rfl
  | rel c =>
    by_cases hc : c ∈ out <;>
      simp [ghostStep, hc, PgPool.returnConnection]

/-- No history of events changes the `stop` flag. -/
lemma ghostRun_stop (g : Ghost) (evs : List Event) :
    (ghostRun g evs).ps.stop = g.ps.stop := by
  induction evs generalizing g with
  | nil => rfl
  | cons e t ih =>
    have h1 := ih (ghostStep g e)
    have h2 := ghostStep_stop g e
    exact h1.trans h2

/-- A successful constructor loop opens exactly as many connections as it
was asked to. -/
lemma openLoop_length (openConn : Nat → Option Nat) :
    ∀ (k i : Nat) (l : List Nat), openLoop openConn i k = some l →
      l.length = k := by
  intro k
  induction k with
  | zero =>
    intro i l h
    simp only [openLoop] at h
    cases h
    rfl
  | succ k ih =>
    intro i l h
    simp only [openLoop, PgPool.createConnection] at h
    cases hoc : openConn i with
    | none => rw [hoc] at h; cases h
    | some c =>
      rw [hoc] at h
      rcases Option.map_eq_some'.mp h with ⟨l', hl', rfl⟩
      simp [ih (i + 1) l' hl']

/-- When every remaining open succeeds, the loop yields the opened handles
in order. -/
lemma openLoop_all_some (openConn : Nat → Option Nat) (f : Nat → Nat) :
    ∀ (k i : Nat), (∀ j, j < k → openConn (i + j) = some (f (i + j))) →
      openLoop openConn i k =
        some ((List.range k).map (fun j => f (i + j))) := by
  intro k
  induction k with
  | zero => intro i _; rfl
  | succ k ih =>
    intro i h
    have h0 : openConn i = some (f i) := by
      have := h 0 (Nat.succ_pos k)
      simpa using this
    have hrest : ∀ j, j < k → openConn (i + 1 + j) = some (f (i + 1 + j)) := by
      intro j hj
      have := h (j + 1) (by omega)
      rwa [show i + (j + 1) = i + 1 + j by omega] at this
    have hrec := ih (i + 1) hrest
    have hfun : ((fun j => f (i + j)) ∘ Nat.succ) = (fun j => f (i + 1 + j)) := by
      funext j
      show f (i + (j + 1)) = f (i + 1 + j)
      congr 1
      omega
    simp only [openLoop, PgPool.createConnection, h0, hrec, Option.map_some']
    congr 1
    rw [List.range_succ_eq_map, List.map_cons, List.map_map, hfun]
    simp

/-- If any open in range fails, the whole constructor loop fails. -/
lemma openLoop_fails (openConn : Nat → Option Nat) :
    ∀ (k i j : Nat), j < k → openConn (i + j) = none →
      openLoop openConn i k = none := by
  intro k
  induction k with
  | zero => intro i j hj _; omega
  | succ k ih =>
    intro i j hj hnone
    cases j with
    | zero =>
      rw [Nat.add_zero] at hnone
      simp [openLoop, PgPool.createConnection, hnone]
    | succ j' =>
      cases hoc : openConn i with
      | none => simp [openLoop, PgPool.createConnection, hoc]
      | some c =>
        have : openLoop openConn (i + 1) k = none := by
          apply ih (i + 1) j' (by omega)
          rwa [show i + 1 + j' = i + (j' + 1) by omega]
        simp [openLoop, PgPool.createConnection, hoc, this]

/-- A successful construction yields a running pool whose idle queue holds
exactly `poolSize` handles. -/
lemma construct_spec (openConn : Nat → Option Nat) (n : Nat) (s : PgPool)
    (h : PgPool.construct openConn n = some s) :
    s.stop = false ∧ s.pool.length = n := by
  simp only [PgPool.construct] at h
  rcases Option.map_eq_some'.mp h with ⟨l, hl, rfl⟩
  exact ⟨rfl, openLoop_length openConn n 0 l hl⟩

/-- Draining a running pool by repeated `acquire`: every call succeeds,
the handles come out in queue order, and the idle set ends empty. -/
lemma acquireN_full (l : List Nat) :
    acquireN ⟨l, false⟩ l.length = some (l, ⟨[], false⟩) := by
  induction l with
  | nil => rfl
  | cons c t ih =>
    show acquireN ⟨c :: t, false⟩ (t.length + 1) = _
    simp [acquireN, PgPool.acquire, ih]

/-- When every one of the `n` opens succeeds, construction succeeds and the
idle queue holds the opened handles in order. -/
lemma construct_all_some (openConn : Nat → Option Nat) (f : Nat → Nat)
    (n : Nat) (h : ∀ i, i < n → openConn i = some (f i)) :
    PgPool.construct openConn n = some ⟨(List.range n).map f, false⟩ := by
  have hall : ∀ j, j < n → openConn (0 + j) = some (f (0 + j)) := by
    intro j hj
    rw [Nat.zero_add]
    exact h j hj
  have hfun : (fun j => f (0 + j)) = f := funext fun j => by rw [Nat.zero_add]
  have hloop := openLoop_all_some openConn f n 0 hall
  rw [hfun] at hloop
  simp [PgPool.construct, hloop]

/-- If any one of the `n` opens fails, construction fails. -/
lemma construct_none (openConn : Nat → Option Nat) (n : Nat)
    (h : ∃ i, i < n ∧ openConn i = none) :
    PgPool.construct openConn n = none := by
  rcases h with ⟨i, hi, hnone⟩
  have hloop := openLoop_fails openConn n 0 i hi (by rwa [Nat.zero_add])
  simp [PgPool.construct, hloop]

/-! ## Claims -/

/-- C1: the release action (`returnConnection`) runs exactly once, when the
last outstanding shared reference to the lease is dropped.  With two
owners (`use_count = 2`), dropping one reference leaves the pool untouched
and a live lease with count 1; dropping that last reference consumes the
lease (`none`, so the hook can never fire again) and re-inserts the handle
into the idle set exactly once (its multiplicity grows by exactly 1). -/
theorem lease_release_runs_exactly_once (s s2 : PgPool) (l : Lease)
    (h : l.refs = 2) :
    Lease.drop s l = (s, some ⟨l.handle, 1⟩) ∧
    (Lease.drop s2 ⟨l.handle, 1⟩).2 = none ∧
    (Lease.drop s2 ⟨l.handle, 1⟩).1.pool.count l.handle
      = s2.pool.count l.handle + 1 := by
  refine ⟨?_, ?_, ?_⟩
  · simp [Lease.drop, h]
  · simp [Lease.drop]
  · simp [Lease.drop, PgPool.returnConnection]

/-- C1 witness: a lease on handle 7 shared by two owners, dropped twice. -/
theorem lease_release_runs_exactly_once_witness :
    Lease.drop ⟨[], false⟩ ⟨7, 2⟩ = (⟨[], false⟩, some ⟨7, 1⟩) ∧
    (Lease.drop ⟨[1], false⟩ ⟨7, 1⟩).2 = none ∧
    (Lease.drop ⟨[1], false⟩ ⟨7, 1⟩).1.pool.count 7
      = ([1] : List Nat).count 7 + 1 :=
  lease_release_runs_exactly_once ⟨[], false⟩ ⟨[1], false⟩ ⟨7, 2⟩ rfl

/-- C2: between construction and destruction, along any history of
`acquire` and last-reference-drop events, `|idle| + |checked out|` stays
equal to `poolSize`, and the multiset of live handles is exactly the one
produced at construction (no handle is created or destroyed). -/
theorem connection_conservation (openConn : Nat → Option Nat) (n : Nat)
    (s : PgPool) (h : PgPool.construct openConn n = some s)
    (evs : List Event) :
    (ghostRun ⟨s, []⟩ evs).ps.pool.length
      + (ghostRun ⟨s, []⟩ evs).out.length = n ∧
    ((ghostRun ⟨s, []⟩ evs).ps.pool ++ (ghostRun ⟨s, []⟩ evs).out).Perm
      s.pool := by
  have hperm := ghostRun_perm ⟨s, []⟩ evs
  rw [List.append_nil] at hperm
  refine ⟨?_, hperm⟩
  have hlen := hperm.length_eq
  rw [List.length_append] at hlen
  rw [hlen, (construct_spec openConn n s h).2]

/-- C2 witness: a pool of 2 handles, after an acquire, a release and
another acquire. -/
theorem connection_conservation_witness :
    PgPool.construct (fun i => some (i + 10)) 2 = some ⟨[10, 11], false⟩ ∧
    ((ghostRun ⟨⟨[10, 11], false⟩, []⟩
        [Event.acq, Event.rel 10, Event.acq]).ps.pool.length
      + (ghostRun ⟨⟨[10, 11], false⟩, []⟩
        [Event.acq, Event.rel 10, Event.acq]).out.length = 2 ∧
     ((ghostRun ⟨⟨[10, 11], false⟩, []⟩
        [Event.acq, Event.rel 10, Event.acq]).ps.pool
       ++ (ghostRun ⟨⟨[10, 11], false⟩, []⟩
        [Event.acq, Event.rel 10, Event.acq]).out).Perm [10, 11]) :=
  ⟨rfl, connection_conservation (fun i => some (i + 10)) 2 ⟨[10, 11], false⟩
    rfl [Event.acq, Event.rel 10, Event.acq]⟩

/-- C3: on a draining pool (`stop = true`), `acquire` throws
`PoolShuttingDown` and leaves the state untouched — no handle is popped,
even when the idle queue is non-empty. -/
theorem draining_acquire_fails_no_side_effect (s : PgPool)
    (h : s.stop = true) :
    s.acquire = (AcquireResult.shuttingDown, s) :=
  acquire_of_stop s h

/-- C3 witness: a draining pool whose idle queue still holds handle 5. -/
theorem draining_acquire_fails_no_side_effect_witness :
    (PgPool.stop ⟨[5], true⟩ = true) ∧
    PgPool.acquire ⟨[5], true⟩ = (AcquireResult.shuttingDown, ⟨[5], true⟩) :=
  ⟨rfl, draining_acquire_fails_no_side_effect ⟨[5], true⟩ rfl⟩

/-- C4: destruction sets `stop`, broadcasts to every waiter
(`notify_all`), and after that — whatever further acquire/release events
happen — every `acquire` (a woken blocked call re-evaluating, or a fresh
call) returns `shuttingDown` immediately and never `blocked`: no call
hangs past shutdown. -/
theorem shutdown_fails_all_acquires (s : PgPool) (out0 : List Nat)
    (evs : List Event) :
    s.destruct.1.stop = true ∧
    s.destruct.2.1 = Signal.notifyAll ∧
    (ghostRun ⟨s.destruct.1, out0⟩ evs).ps.acquire
      = (AcquireResult.shuttingDown, (ghostRun ⟨s.destruct.1, out0⟩ evs).ps) := by
  refine ⟨rfl, rfl, ?_⟩
  apply acquire_of_stop
  rw [ghostRun_stop]
  rfl

/-- C5 counterexample: pool of size 1 whose only handle (7) is checked out
at destruction (idle queue empty, `stop` set).  Dropping the last lease
reference afterwards runs `returnConnection`, which unconditionally
pushes the handle back: the idle set becomes `[7]`, not empty — the
handle is re-inserted, not closed/discarded as the claim states. -/
theorem late_release_discards_counterexample :
    (PgPool.destruct ⟨[], false⟩).1.pool = [] ∧
    (Lease.drop (PgPool.destruct ⟨[], false⟩).1 ⟨7, 1⟩).1.pool = [7] ∧
    (Lease.drop (PgPool.destruct ⟨[], false⟩).1 ⟨7, 1⟩).1.pool ≠ [] := by
  refine ⟨rfl, rfl, ?_⟩
  decide

/-- C5 amended: when the last reference to a handle still checked out at
destruction is dropped, the release hook re-inserts the handle into the
idle set exactly as it does while running (in the real program this
dereferences the already-destroyed pool object); it never closes or
discards the handle. -/
theorem late_release_still_reinserts (s : PgPool) (l : Lease)
    (_hstop : s.stop = true) (hlast : l.refs ≤ 1) :
    Lease.drop s l = ({ s with pool := s.pool ++ [l.handle] }, none) := by
  simp [Lease.drop, hlast, PgPool.returnConnection]

/-- C5 amended witness: dropping the last reference to handle 7 against a
drained pool. -/
theorem late_release_still_reinserts_witness :
    (PgPool.stop ⟨[], true⟩ = true) ∧ (Lease.refs ⟨7, 1⟩ ≤ 1) ∧
    Lease.drop ⟨[], true⟩ ⟨7, 1⟩ = (⟨[7], true⟩, none) :=
  ⟨rfl, by decide, late_release_still_reinserts ⟨[], true⟩ ⟨7, 1⟩ rfl
    (by decide)⟩

/-- C6: the release hook pushes the handle to the back of the idle queue
and issues exactly one `notify_one`, identically in the Running
(`stop = false`) and Draining (`stop = true`) states — `stop` is never
inspected. -/
theorem returnConnection_reinserts_and_notifies (pool : List Nat)
    (stop : Bool) (conn : Nat) :
    PgPool.returnConnection ⟨pool, stop⟩ conn
      = (⟨pool ++ [conn], stop⟩, Signal.notifyOne) :=
  rfl

/-- C7: construction opens exactly `poolSize` connections one at a time in
order, placing each into the idle queue; if every open succeeds the pool
holds them all, and if any open fails the constructor propagates the
failure and yields no pool at all. -/
theorem construct_all_or_nothing (openConn : Nat → Option Nat) (n : Nat)
    (f : Nat → Nat) :
    ((∀ i, i < n → openConn i = some (f i)) →
      PgPool.construct openConn n = some ⟨(List.range n).map f, false⟩) ∧
    ((∃ i, i < n ∧ openConn i = none) →
      PgPool.construct openConn n = none) :=
  ⟨construct_all_some openConn f n, construct_none openConn n⟩

/-- C7 witness: three successful opens build the full pool; a failing
second open aborts construction. -/
theorem construct_all_or_nothing_witness :
    PgPool.construct (fun j => some (j + 3)) 2
      = some ⟨(List.range 2).map (fun j => j + 3), false⟩ ∧
    PgPool.construct (fun j => if j = 1 then none else some j) 2 = none :=
  ⟨(construct_all_or_nothing (fun j => some (j + 3)) 2 (fun j => j + 3)).1
      (fun _ _ => rfl),
   (construct_all_or_nothing (fun j => if j = 1 then none else some j) 2
      (fun j => j)).2 ⟨1, by omega, rfl⟩⟩

/-- C8: on a freshly constructed pool of size `n`, the first `n` `acquire`
calls all succeed without blocking (draining the whole idle queue), and
the `(n+1)`-th call — on the now-empty running pool — blocks. -/
theorem first_n_acquires_succeed_then_block (openConn : Nat → Option Nat)
    (n : Nat) (s : PgPool) (h : PgPool.construct openConn n = some s) :
    acquireN s n = some (s.pool, ⟨[], false⟩) ∧
    PgPool.acquire ⟨[], false⟩ = (AcquireResult.blocked, ⟨[], false⟩) := by
  obtain ⟨hstop, hlen⟩ := construct_spec openConn n s h
  rcases s with ⟨pool, stop⟩
  dsimp only at hstop hlen
  subst hstop
  refine ⟨?_, rfl⟩
  rw [← hlen]
  exact acquireN_full pool

/-- C8 witness: a pool of 2 handles drained by 2 acquires; the 3rd
blocks. -/
theorem first_n_acquires_succeed_then_block_witness :
    PgPool.construct (fun i => some i) 2 = some ⟨[0, 1], false⟩ ∧
    (acquireN ⟨[0, 1], false⟩ 2 = some (([0, 1] : List Nat), ⟨[], false⟩) ∧
     PgPool.acquire ⟨[], false⟩ = (AcquireResult.blocked, ⟨[], false⟩)) :=
  ⟨rfl, first_n_acquires_succeed_then_block (fun i => some i) 2
    ⟨[0, 1], false⟩ rfl⟩

/-- C9: the idle set is a strict FIFO queue. `acquire` pops the front
(least recently inserted) handle; a fresh pool hands the handles out in
exactly the order construction opened them; a returned handle is pushed to
the back, so draining the queue yields it last — only after every handle
that was already idle when it was returned. -/
theorem idle_queue_fifo (c conn : Nat) (rest pool : List Nat) (stop : Bool)
    (openConn : Nat → Option Nat) (n : Nat) (f : Nat → Nat) :
    PgPool.acquire ⟨c :: rest, false⟩
      = (AcquireResult.acquired c, ⟨rest, false⟩) ∧
    (PgPool.returnConnection ⟨pool, stop⟩ conn).1 = ⟨pool ++ [conn], stop⟩ ∧
    ((∀ i, i < n → openConn i = some (f i)) →
      ∃ s, PgPool.construct openConn n = some s ∧
        acquireN s n = some ((List.range n).map f, ⟨[], false⟩)) ∧
    acquireN ⟨pool ++ [conn], false⟩ (pool.length + 1)
      = some (pool ++ [conn], ⟨[], false⟩) := by
  refine ⟨rfl, rfl, ?_, ?_⟩
  · intro h
    refine ⟨⟨(List.range n).map f, false⟩, construct_all_some openConn f n h, ?_⟩
    have hfull := acquireN_full ((List.range n).map f)
    rwa [List.length_map, List.length_range] at hfull
  · have hfull := acquireN_full (pool ++ [conn])
    rwa [List.length_append, List.length_singleton] at hfull

/-- C9 witness: front pop, order of hand-out on a fresh pool of 2, and a
returned handle (9) drained last behind the idle handles 4, 5. -/
theorem idle_queue_fifo_witness :
    PgPool.acquire ⟨0 :: [1], false⟩
      = (AcquireResult.acquired 0, ⟨[1], false⟩) ∧
    (∃ s, PgPool.construct (fun j => some (j + 1)) 2 = some s ∧
      acquireN s 2 = some ((List.range 2).map (fun j => j + 1), ⟨[], false⟩)) ∧
    acquireN ⟨[4, 5] ++ [9], false⟩ ([4, 5].length + 1)
      = some ([4, 5] ++ [9], ⟨[], false⟩) :=
  ⟨(idle_queue_fifo 0 9 [1] [4, 5] false (fun j => some (j + 1)) 2
      (fun j => j + 1)).1,
   (idle_queue_fifo 0 9 [1] [4, 5] false (fun j => some (j + 1)) 2
      (fun j => j + 1)).2.2.1 (fun _ _ => rfl),
   (idle_queue_fifo 0 9 [1] [4, 5] false (fun j => some (j + 1)) 2
      (fun j => j + 1)).2.2.2⟩

/-- C10: the constructor accepts `poolSize = 0` without any check (it
opens nothing, whatever the environment would answer), yielding a running
pool with an empty idle queue; on it, `acquire` blocks while Running and
can only complete via the shutdown path with `PoolShuttingDown`. -/
theorem zero_pool_size_accepted (openConn : Nat → Option Nat) :
    PgPool.construct openConn 0 = some ⟨[], false⟩ ∧
    PgPool.acquire ⟨[], false⟩ = (AcquireResult.blocked, ⟨[], false⟩) ∧
    PgPool.acquire ⟨[], true⟩ = (AcquireResult.shuttingDown, ⟨[], true⟩) :=
  ⟨rfl, rfl, rfl⟩

end PgPoolModel
